import Mathlib

/-
Verification of the mustache logic-less template renderer (template.py).

The engine is shallowly embedded over `List Char`.  Python's dynamically
typed context values become the closed variant `Value`; the two regex-driven
rewriting loops (`render_sections`, `render_tags`) become fuel-indexed
structurally-recursive functions so that every definition is executable and
kernel-reducible; exceptions that the Python code can raise (KeyError from the
modifier table, ValueError from tuple unpacking in `render_delimiter`) become
`Except` errors, and fuel exhaustion is the distinguished error `outOfFuel`.
-/

namespace Mustache

/-- Defunctionalized callables.  A Python callable stored in a context takes
(raw inner text, current context) and returns a string; since `Value` cannot
contain functions over itself (positivity), the callables used to exercise
the engine are listed here and interpreted by `applyFunc`.
`constRes s` ignores both arguments and returns `s`; `upper` returns the
uppercase of the inner text (the doctest's `lambda x, c: x.upper()`). -/
inductive FuncSpec where
  | constRes : String → FuncSpec
  | upper : FuncSpec
deriving DecidableEq

/-- Python context value: a mapping, an ordered sequence, a scalar
(string / int / bool), or a callable taking (raw inner text, context)
and returning a string, mirroring the values `template.py` dispatches on. -/
inductive Value where
  | str : String → Value
  | int : Int → Value
  | bool : Bool → Value
  | list : List Value → Value
  | dict : List (String × Value) → Value
  | func : FuncSpec → Value

/-- ASCII uppercase of one character, Python `str.upper` on the letters
that occur in the tests. -/
def upChar (c : Char) : Char :=
  if 'a' ≤ c ∧ c ≤ 'z' then Char.ofNat (c.toNat - 32) else c

/-- Interpreter for the defunctionalized callables: `f(inner, context)`. -/
def applyFunc (f : FuncSpec) (inner : String) (ctx : Value) : String :=
  match f, inner, ctx with
  | FuncSpec.constRes s, _, _ => s
  | FuncSpec.upper, t, _ => String.mk (t.data.map upChar)

/-- Python errors the renderer can raise: `modifiers[tag_type]` raises
KeyError when the modifier symbol has no registered handler;
`tag_name.split(' ')` unpacked into two names raises ValueError when the
split does not have exactly two parts; `context[int(s)]` raises
ValueError / IndexError / TypeError (all modelled as `indexingError`, they
are caught by the bare `except` in `_get_it`); a missing partial template
is the loading collaborator's error. -/
inductive PyErr where
  | keyError
  | valueError
  | indexingError
  | missingPartialTemplate
deriving DecidableEq

/-- Renderer outcome errors: a genuine Python exception, or exhaustion of
the fuel that makes the rewriting loops total in Lean. -/
inductive RErr where
  | outOfFuel
  | py : PyErr → RErr
deriving DecidableEq

/-- Python truthiness (`if it:`): empty string, zero, False, empty list and
empty dict are falsy; functions are truthy. -/
def truthy : Value → Bool
  | Value.str s => !s.data.isEmpty
  | Value.int n => !(n == 0)
  | Value.bool b => b
  | Value.list l => !l.isEmpty
  | Value.dict d => !d.isEmpty
  | Value.func _ => true

/-- Python `raw is 0` for the values in the model: only the integer zero.
(CPython interns small ints, so any int of value 0 is identical to `0`.) -/
def isIntZero : Value → Bool
  | Value.int n => n == 0
  | _ => false

/-- Python whitespace as used by `str.strip()`. -/
def isPySpace (c : Char) : Bool :=
  c == ' ' || c == '\t' || c == '\n' || c == '\r' || c == '\x0b' || c == '\x0c'

/-- Python `s.strip()`: drop whitespace from both ends. -/
def pyStrip (s : List Char) : List Char :=
  ((s.dropWhile isPySpace).reverse.dropWhile isPySpace).reverse

/-- Python `s.split(sep)` for a single-character separator: non-collapsing,
`''.split(' ') = ['']`. -/
def splitChar (sep : Char) : List Char → List (List Char)
  | [] => [[]]
  | c :: r =>
    if c == sep then [] :: splitChar sep r
    else
      match splitChar sep r with
      | h :: t => (c :: h) :: t
      | [] => [[c]]

/-- Digit accumulator for `pyInt`. -/
def parseDigitsAux : Nat → List Char → Option Nat
  | acc, [] => some acc
  | acc, c :: r =>
    if c.isDigit then parseDigitsAux (acc * 10 + (c.toNat - ('0').toNat)) r
    else none

/-- Nonempty all-digit run, else `none`. -/
def parseDigits : List Char → Option Nat
  | [] => none
  | c :: r => parseDigitsAux 0 (c :: r)

/-- Python `int(s)` on a string: surrounding whitespace allowed, one optional
sign, then at least one digit; anything else raises ValueError (here `none`). -/
def pyInt (s : List Char) : Option Int :=
  match pyStrip s with
  | '-' :: r => (parseDigits r).map (fun n => -(n : Int))
  | '+' :: r => (parseDigits r).map (fun n => (n : Int))
  | r => (parseDigits r).map (fun n => (n : Int))

/-- Python sequence indexing `l[i]` with negative-index wrap-around;
`none` is IndexError. -/
def pyIndexL {α : Type} (l : List α) (i : Int) : Option α :=
  let j : Int := if i < 0 then i + l.length else i
  if j < 0 then none else l.get? j.toNat

/-- First-match association lookup, Python `dict` access for the literal
dicts of the model. -/
def dictLookup : List (String × Value) → String → Option Value
  | [], _ => none
  | (k, v) :: r, key => if k = key then some v else dictLookup r key

/-- Python `context[int(s)]` for non-mapping contexts: parse the segment as
an int (ValueError if not) and index.  Py2 lists and strings are indexable
(indexing a string yields a one-character string); ints, bools and functions
raise TypeError.  `none` stands for the raised exception. -/
def tryIndex (c : Value) (seg : List Char) : Option Value :=
  match pyInt seg with
  | none => none
  | some i =>
    match c with
    | Value.list l => pyIndexL l i
    | Value.str s => (pyIndexL s.data i).map (fun ch => Value.str (String.mk [ch]))
    | _ => none

/-- Comma-join for container reprs: Python uses ", " between elements. -/
def commaJoin : List (List Char) → List Char
  | [] => []
  | [x] => x
  | x :: y :: r => x ++ (", ").data ++ commaJoin (y :: r)

/-
Python `repr` of a value, used for elements of containers by
`str`/`unicode`.  The string case is simplified to plain single quotes
(faithful for strings without quotes or escapes; no claim interpolates a
container holding such a string).  The repr of a function object is
address-dependent in Python and is modelled by a fixed placeholder; no claim
interpolates a function.
-/
mutual

def pyRepr : Value → List Char
  | Value.str s => '\x27' :: s.data ++ ['\x27']
  | Value.int n => (toString n).data
  | Value.bool b => (cond b ("True") ("False")).data
  | Value.func _ => ("<function>").data
  | Value.list l => '[' :: commaJoin (pyReprL l) ++ [']']
  | Value.dict d => '\x7b' :: commaJoin (pyReprD d) ++ ['\x7d']

def pyReprL : List Value → List (List Char)
  | [] => []
  | v :: r => pyRepr v :: pyReprL r

def pyReprD : List (String × Value) → List (List Char)
  | [] => []
  | kv :: r => ('\x27' :: kv.1.data ++ ('\x27' :: (": ").data) ++ pyRepr kv.2) :: pyReprD r

end

/-- Python `unicode(raw)`: a string is itself, scalars print as in Python,
containers print via `repr` of their elements. -/
def pyUnicode : Value → List Char
  | Value.str s => s.data
  | v => pyRepr v

/-- Python-exact prefix match: `some r` when `s = pat ++ r`. -/
def dropPref : List Char → List Char → Option (List Char)
  | [], s => some s
  | _ :: _, [] => none
  | p :: ps, c :: r => if p == c then dropPref ps r else none

/-- Fuelled worker for `str.replace`: replaces every non-overlapping
occurrence of `pat`, scanning left to right.  The fuel is the length of the
scanned list, enough because each step consumes at least one character. -/
def replaceAuxF (pat rep : List Char) : Nat → List Char → List Char
  | _, [] => []
  | 0, s => s
  | n + 1, c :: r =>
    match dropPref pat (c :: r) with
    | some rest => rep ++ replaceAuxF pat rep n rest
    | none => c :: replaceAuxF pat rep n r

/-- Python `s.replace(pat, rep)` (all occurrences).  For the empty pattern
Python interleaves `rep` around every character. -/
def pyReplace (s pat rep : List Char) : List Char :=
  match pat with
  | [] => rep ++ (s.map (fun c => c :: rep)).flatten
  | _ :: _ => replaceAuxF pat rep s.length s

/-- Python 2 `cgi.escape(s)` without the `quote` flag: replaces `&`, `<`,
`>` in that order and nothing else (in particular quote characters are left
alone). -/
def cgiEscape (s : List Char) : List Char :=
  pyReplace (pyReplace (pyReplace s (("&").data) (("&amp;").data)) (("<").data) (("&lt;").data)) ((">").data) (("&gt;").data)

/-- Walk of the dotted-path segments in `Template._get_it`: a mapping
context uses `context.get(s, '')` (missing keys continue with the empty
string), any other context is indexed via `context[int(s)]` inside
`try: ... except: return ''`, so every indexing failure silently ends the
whole resolution with the empty string. -/
def getItAux (root : Value) : List (List Char) → Value → Value
  | [], c => c
  | seg :: rest, c =>
    match c with
    | Value.dict d =>
      getItAux root rest
        (match dictLookup d (String.mk seg) with
         | some v => v
         | none => Value.str "")
    | _ =>
      match tryIndex c seg with
      | some v => getItAux root rest v
      | none => Value.str ""

/-- Uncaught variant of the path walk: identical to `getItAux` except that
the indexing failures which the source's bare `except:` swallows are
surfaced as `Except.error`.  Used to state that `_get_it` never raises. -/
def getItAuxE (root : Value) : List (List Char) → Value → Except PyErr Value
  | [], c => Except.ok c
  | seg :: rest, c =>
    match c with
    | Value.dict d =>
      getItAuxE root rest
        (match dictLookup d (String.mk seg) with
         | some v => v
         | none => Value.str "")
    | _ =>
      match tryIndex c seg with
      | some v => getItAuxE root rest v
      | none => Except.error PyErr.indexingError

/-- `Template._get_it(name, context)`: the current-context sentinel `.`,
the root-context switch for names beginning with `.`, then the segment
walk.  `root` is `self.context`. -/
def get_it (root : Value) (name : List Char) (ctx : Value) : Value :=
  if name = ['.'] then ctx
  else
    match splitChar '.' name with
    | [] :: rest => getItAux root rest root
    | stack => getItAux root stack ctx

/-- Match of `tag_re`: the matched span, the optional modifier symbol
(group 1) and the raw name (group 2). -/
structure TagM where
  full : List Char
  modifier : Option Char
  name : List Char
deriving DecidableEq

/-- Match of `section_re`: the matched span, the marker (group 1), the raw
name (group 2), the inner text (group 3) and the text after the match. -/
structure SecM where
  full : List Char
  marker : Char
  name : List Char
  inner : List Char
  rest : List Char
deriving DecidableEq

/-- Length of the maximal run of `c` at the head of the list. -/
def countRun (c : Char) : List Char → Nat
  | [] => 0
  | x :: r => if x == c then countRun c r + 1 else 0

/-- The closing part of `tag_re`.  `re.escape(ctag)` followed by `+` puts
the `+` on the last character only, so the pattern is the delimiter's
initial characters exactly, then a greedy run of one or more of its last
character.  Returns the consumed characters and the remainder.  (For an
empty close delimiter the compiled pattern degenerates; the engine never
runs with empty delimiters in the claims, and the case is mapped to an
immediate match of nothing.) -/
def ctagPlus (ctag : List Char) (s : List Char) : Option (List Char × List Char) :=
  match ctag.getLast? with
  | none => some ([], s)
  | some lastc =>
    match dropPref ctag.dropLast s with
    | none => none
    | some r1 =>
      let k := countRun lastc r1
      if k == 0 then none
      else some (ctag.dropLast ++ List.replicate k lastc, r1.drop k)

/-- Lazy `(.+?)` of `tag_re` followed by the closing part: the shortest
nonempty newline-free name after which `ctagPlus` matches (the tag pattern
is compiled without DOTALL, so `.` cannot cross a newline).  Returns
(name, closing characters, remainder). -/
def splitTagName (ctag : List Char) (acc : List Char) : List Char → Option (List Char × List Char × List Char)
  | [] => none
  | c :: r =>
    if c == '\n' then none
    else
      match ctagPlus ctag r with
      | some (close, rest) => some (acc ++ [c], close, rest)
      | none => splitTagName ctag (acc ++ [c]) r

/-- `tag_re` anchored at the current position:
`otag (=|&|!|>|{)? (.+?) ctag-with-plus`.  The optional modifier group is
greedy, so a modifier character is consumed when the rest of the pattern can
still match, and given back otherwise. -/
def tagMatchAt (otag ctag : List Char) (s : List Char) : Option TagM :=
  match dropPref otag s with
  | none => none
  | some r0 =>
    match r0 with
    | [] => none
    | c :: r1 =>
      if c == '=' || c == '&' || c == '!' || c == '>' || c == '\x7b' then
        match splitTagName ctag [] r1 with
        | some (name, close, _) => some (TagM.mk (otag ++ [c] ++ name ++ close) (some c) name)
        | none =>
          match splitTagName ctag [] r0 with
          | some (name, close, _) => some (TagM.mk (otag ++ name ++ close) none name)
          | none => none
      else
        match splitTagName ctag [] r0 with
        | some (name, close, _) => some (TagM.mk (otag ++ name ++ close) none name)
        | none => none

/-- `tag_re.search`: leftmost match. -/
def tagSearch (otag ctag : List Char) : List Char → Option TagM
  | [] => tagMatchAt otag ctag []
  | c :: r =>
    match tagMatchAt otag ctag (c :: r) with
    | some m => some m
    | none => tagSearch otag ctag r

/-- Lazy `(.+?)` for the inner text of `section_re` (compiled with DOTALL,
so any characters), followed by the literal closing tag `close`: the
shortest nonempty inner text after which `close` is an exact prefix.
Returns (inner text, remainder after the closing tag). -/
def findClose (close : List Char) (acc : List Char) : List Char → Option (List Char × List Char)
  | [] => none
  | c :: r =>
    match dropPref close r with
    | some rest => some (acc ++ [c], rest)
    | none => findClose close (acc ++ [c]) r

/-- The starred last character of the first close delimiter in
`section_re` (`re.escape(ctag)` followed by `*` stars only the last
character).  The star is greedy with backtracking: try consuming `cnt`
copies first, then fewer, running the lazy inner-text search after each
choice.  `s` starts with at least `cnt` copies of that character when
called.  Returns (copies consumed, inner text, remainder). -/
def tryStar (close : List Char) : Nat → List Char → Option (Nat × List Char × List Char)
  | 0, s => (findClose close [] s).map (fun p => (0, p.1, p.2))
  | k + 1, s =>
    match findClose close [] (s.drop (k + 1)) with
    | some p => some (k + 1, p.1, p.2)
    | none => tryStar close k s

/-- Lazy `(.+?)` of `section_re` for the section name (DOTALL: newlines
allowed), each candidate name followed by the first close delimiter with
starred last character, the lazy inner text and the literal closing tag
`otag / name ctag` whose name is the backreference `\2`. -/
def splitSecName (otag ctag : List Char) (marker : Char) (acc : List Char) : List Char → Option SecM
  | [] => none
  | c :: r =>
    match ctag.getLast? with
    | none => none
    | some lastc =>
      let name := acc ++ [c]
      let attempt :=
        match dropPref ctag.dropLast r with
        | none => none
        | some r1 =>
          match tryStar (otag ++ ['/'] ++ name ++ ctag) (countRun lastc r1) r1 with
          | none => none
          | some (k, inner, rest) =>
            some (SecM.mk
              (otag ++ [marker] ++ name ++ ctag.dropLast ++ List.replicate k lastc ++ inner ++ otag ++ ['/'] ++ name ++ ctag)
              marker name inner rest)
      match attempt with
      | some m => some m
      | none => splitSecName otag ctag marker name r

/-- `section_re` anchored at the current position:
`otag (#|^|?) (.+?) ctag-with-star (.+?) otag / \2 ctag`. -/
def sectionMatchAt (otag ctag : List Char) (s : List Char) : Option SecM :=
  match dropPref otag s with
  | none => none
  | some r0 =>
    match r0 with
    | [] => none
    | c :: r1 =>
      if c == '#' || c == '^' || c == '?' then splitSecName otag ctag c [] r1
      else none

/-- `section_re.search`: leftmost match. -/
def sectionSearch (otag ctag : List Char) : List Char → Option SecM
  | [] => sectionMatchAt otag ctag []
  | c :: r =>
    match sectionMatchAt otag ctag (c :: r) with
    | some m => some m
    | none => sectionSearch otag ctag r

/-- The mutable attributes of a `Template` instance: `self.template`,
`self.context` (the root context), the delimiters `self.otag` / `self.ctag`
(recompiling the regexps on change is implicit, because the matchers take
the delimiters as arguments), and the partial-loading collaborator.
The collaborator is modelled from the spec: `render_partial` imports
`View`, which lives outside this repository's sources; the spec describes
it as `loadPartial(name) -> template text`, with a missing resource being
a hard error. -/
structure PyState where
  selfTemplate : List Char
  rootCtx : Value
  otag : List Char
  ctag : List Char
  loadPartial : String → Option (List Char)

/-- Result of one pipeline stage: the rewritten text plus the (possibly
mutated) instance state, or a raised error. -/
abbrev RRes := Except RErr (List Char × PyState)

/-- Stage signature for `render_sections` / `render_tags`. -/
abbrev PipeFn := PyState → List Char → Value → RRes

/-- Signature of `Template.render(template=None, context=None)`. -/
abbrev RendFn := PyState → Option (List Char) → Option Value → RRes

/-- Python `template or self.template`: `None` and the empty string both
fall back to the instance attribute. -/
def pyOrT (a : Option (List Char)) (d : List Char) : List Char :=
  match a with
  | none => d
  | some t => if t.isEmpty then d else t

/-- Python `context or self.context`: `None` and every falsy value fall
back to the instance attribute. -/
def pyOrV (a : Option Value) (d : Value) : Value :=
  match a with
  | none => d
  | some v => if truthy v then v else d

/-- Default delimiters, the class attributes `otag = '{{'`, `ctag = '}}'`. -/
def otagD : List Char := ['\x7b', '\x7b']

/-- Default close delimiter. -/
def ctagD : List Char := ['\x7d', '\x7d']

/-- A fresh `Template(template, context)` instance state, as built by
`__init__` (`self.context = context or {}`) with class-default delimiters.
Used for the pipeline of a partial, modelled from the spec's fresh-render
description. -/
def freshState (txt : List Char) (ctx : Value) (lp : String → Option (List Char)) : PyState :=
  PyState.mk txt (if truthy ctx then ctx else Value.dict []) otagD ctagD lp

/-- Dispatch on `modifiers[tag_type]` followed by the handler call.
The registered handlers are `None` (render_tag), `!` (render_comment),
`&` (render_unescaped), `>` (render_partial) and `=` (render_delimiter);
any other matched modifier symbol — the tag regexp can also produce an
unregistered opening brace — raises KeyError from the dictionary lookup.
`render_delimiter` does `self.otag, self.ctag = tag_name.split(' ')`,
whose tuple unpacking raises ValueError unless the split has exactly two
parts.  Returns the replacement text and the updated instance state. -/
def applyModifier (rend : RendFn) (st : PyState) (mod : Option Char) (name : List Char) (ctx : Value) : RRes :=
  match mod with
  | none =>
    let raw := get_it st.rootCtx name ctx
    if !truthy raw && !isIntZero raw then Except.ok ([], st)
    else Except.ok (cgiEscape (pyUnicode raw), st)
  | some '!' => Except.ok ([], st)
  | some '&' => Except.ok (pyUnicode (get_it st.rootCtx name ctx), st)
  | some '>' =>
    match st.loadPartial (String.mk name) with
    | none => Except.error (RErr.py PyErr.missingPartialTemplate)
    | some txt =>
      match rend (freshState txt ctx st.loadPartial) none none with
      | Except.error e => Except.error e
      | Except.ok (r, _) => Except.ok (r, st)
  | some '=' =>
    match splitChar ' ' name with
    | [a, b] => Except.ok ([], PyState.mk st.selfTemplate st.rootCtx a b st.loadPartial)
    | _ => Except.error (RErr.py PyErr.valueError)
  | some _ => Except.error (RErr.py PyErr.keyError)

/-- The iteration branch of `render_sections`:
`insides = [self.render(inner, item) for item in it]` with the instance
state threaded through the list comprehension, then `''.join(insides)`. -/
def renderItems (rend : RendFn) : PyState → List Char → List Value → RRes
  | st, _, [] => Except.ok ([], st)
  | st, inner, item :: rest =>
    match rend st (some inner) (some item) with
    | Except.error e => Except.error e
    | Except.ok (r, st1) =>
      match renderItems rend st1 inner rest with
      | Except.error e => Except.error e
      | Except.ok (rs, st2) => Except.ok (r ++ rs, st2)

/-- One load of the `render_sections` while-loop body, parameterized by the
`self.render` to use for nested renders and by the continuation for the
next loop iteration.  Branch order follows the source: `callable(it)`
first (exactly the `func` values), then
`hasattr(it, '__iter__') and not hasattr(it, 'get')` (exactly the `list`
values: dicts have `get`, Python 2 strings have no `__iter__`, scalars and
functions are not iterable), else a single re-render with `it` as context.
The matched span is then replaced throughout the template and the loop
continues; no match ends the phase. -/
def sectionsBody (rend : RendFn) (sectsNext : PipeFn) (st : PyState) (tmpl : List Char) (ctx : Value) : RRes :=
  match sectionSearch st.otag st.ctag tmpl with
  | none => Except.ok (tmpl, st)
  | some m =>
    let name := pyStrip m.name
    let it := get_it st.rootCtx name ctx
    let rep : RRes :=
      if truthy it && m.marker == '#' then
        match it with
        | Value.func f => Except.ok ((applyFunc f (String.mk m.inner) ctx).data, st)
        | Value.list items => renderItems rend st m.inner items
        | _ => rend st (some m.inner) (some it)
      else if !truthy it && m.marker == '^' then Except.ok (m.inner, st)
      else if truthy it && m.marker == '?' then Except.ok (m.inner, st)
      else Except.ok ([], st)
    match rep with
    | Except.error e => Except.error e
    | Except.ok (r, st1) => sectsNext st1 (pyReplace tmpl m.full r) ctx

/-- One load of the `render_tags` while-loop body: find the first tag,
strip its name, dispatch through the modifier table, replace the matched
span throughout the template, and continue with the possibly updated
delimiters; no match ends the phase. -/
def tagsBody (rend : RendFn) (tagsNext : PipeFn) (st : PyState) (tmpl : List Char) (ctx : Value) : RRes :=
  match tagSearch st.otag st.ctag tmpl with
  | none => Except.ok (tmpl, st)
  | some m =>
    match applyModifier rend st m.modifier (pyStrip m.name) ctx with
    | Except.error e => Except.error e
    | Except.ok (r, st1) => tagsNext st1 (pyReplace tmpl m.full r) ctx

/-- `Template.render(template=None, context=None)` body: resolve the
`or`-defaults, run the section phase, then the tag phase (the `encoding`
step is out of scope per the spec). -/
def renderBody (sects tags : PipeFn) (st : PyState) (tArg : Option (List Char)) (cArg : Option Value) : RRes :=
  let tmpl := pyOrT tArg st.selfTemplate
  let ctx := pyOrV cArg st.rootCtx
  match sects st tmpl ctx with
  | Except.error e => Except.error e
  | Except.ok (t1, st1) => tags st1 t1 ctx

/-- The three mutually recursive pipeline functions at one fuel level. -/
structure Engine where
  rend : RendFn
  sects : PipeFn
  tags : PipeFn

/-- Fuel-indexed engine: every while-loop iteration and every nested
`self.render` call descends one fuel level, so the Python fixpoint loops
become structural recursion on the fuel; exhausting it yields `outOfFuel`,
and a run of the Python code terminates exactly when some fuel suffices. -/
def engineF : Nat → Engine
  | 0 =>
    Engine.mk (fun _ _ _ => Except.error RErr.outOfFuel)
      (fun _ _ _ => Except.error RErr.outOfFuel)
      (fun _ _ _ => Except.error RErr.outOfFuel)
  | n + 1 =>
    Engine.mk (renderBody (engineF n).sects (engineF n).tags)
      (sectionsBody (engineF n).rend (engineF n).sects)
      (tagsBody (engineF n).rend (engineF n).tags)

/-- `Template.render` at a fuel level. -/
def renderF (n : Nat) : RendFn := (engineF n).rend

/-- `Template.render_sections` at a fuel level. -/
def renderSectionsF (n : Nat) : PipeFn := (engineF n).sects

/-- `Template.render_tags` at a fuel level. -/
def renderTagsF (n : Nat) : PipeFn := (engineF n).tags

/-- The module-level `render(template, context)`:
`context = context and context.copy() or None` followed by
`Template(template, context).render()` (so a falsy context becomes the
empty mapping), returning the final text.  The partial collaborator is the
empty loader; no claim exercises partials. -/
def render (n : Nat) (template : String) (context : Value) : Except RErr String :=
  match renderF n
      (PyState.mk template.data (if truthy context then context else Value.dict [])
        otagD ctagD (fun _ => none))
      none none with
  | Except.error e => Except.error e
  | Except.ok (r, _) => Except.ok (String.mk r)

/-- `pat` occurs as a contiguous substring (the search patterns can only
match where their leading literal occurs). -/
def occursIn (pat : List Char) : List Char → Bool
  | [] => (dropPref pat []).isSome
  | c :: r => (dropPref pat (c :: r)).isSome || occursIn pat r

/-- No opening-brace character anywhere in the list. -/
def noBrace (l : List Char) : Bool := l.all (fun c => !(c == '\x7b'))

/-- The head character is not an opening brace (or the list is empty). -/
def headNB : List Char → Bool
  | [] => true
  | c :: _ => !(c == '\x7b')

/-- A callable section value that returns its own enclosing block, making
the section phase rewrite in place forever. -/
def loopFunc : FuncSpec := FuncSpec.constRes ("\x7b\x7b#up\x7d\x7dx\x7b\x7b/up\x7d\x7d")

/-- Context binding `up` to the self-reproducing callable. -/
def loopCtx : Value := Value.dict [("up", Value.func loopFunc)]

/-- The template whose only section is governed by the self-reproducing
callable. -/
def loopTemplate : List Char := ("\x7b\x7b#up\x7d\x7dx\x7b\x7b/up\x7d\x7d").data

/-- Instance state for the non-terminating section-phase run. -/
def loopState : PyState := PyState.mk loopTemplate loopCtx otagD ctagD (fun _ => none)

/-- The doctest-style callable-section template `{{#up}}ab{{cv}}{{/up}}`. -/
def upTemplate : List Char := ("\x7b\x7b#up\x7d\x7dab\x7b\x7bcv\x7d\x7d\x7b\x7b/up\x7d\x7d").data

/-- Context binding `up` to the uppercasing callable and `cv` to `"Z"`. -/
def upCtx : Value := Value.dict [("up", Value.func FuncSpec.upper), ("cv", Value.str "Z")]

/-- Instance state for the callable-section step witness. -/
def upState : PyState := PyState.mk upTemplate upCtx otagD ctagD (fun _ => none)

/-- The raw inner text of the `up` section: the `{{cv}}` tag is inside it,
unrendered. -/
def upInner : List Char := ("ab\x7b\x7bcv\x7d\x7d").data

/-- The replacement text computed by a `render_sections` iteration whose
branch does not recurse into `self.render`: inner text for a falsy `^` or a
truthy `?` block, the empty string otherwise (in particular for a falsy `#`
block). -/
def nonRecReplacer (st : PyState) (m : SecM) (ctx : Value) : List Char :=
  let it := get_it st.rootCtx (pyStrip m.name) ctx
  if !truthy it && m.marker == '^' then m.inner
  else if truthy it && m.marker == '?' then m.inner
  else []

/-- Shape of every span the section pattern matches: a fully closed block —
open delimiter, marker, name, close delimiter (with starred last
character), nonempty inner text, and a closing tag whose name is the exact
backreference of the opening name. -/
def SecShape (ot ct : List Char) (m : SecM) : Prop :=
  ∃ lastc k, ct.getLast? = some lastc ∧ m.inner ≠ [] ∧
    m.full = ot ++ [m.marker] ++ m.name ++ ct.dropLast ++ List.replicate k lastc
      ++ m.inner ++ ot ++ ['/'] ++ m.name ++ ct

/-- The inverted-section template used to witness the shrink property. -/
def invTemplate : List Char := ("\x7b\x7b^a\x7d\x7dB\x7b\x7b/a\x7d\x7d").data

/-- Instance state for the shrink witness. -/
def invState : PyState := PyState.mk invTemplate (Value.dict []) otagD ctagD (fun _ => none)

/-- The section match of `invTemplate`. -/
def invSecM : SecM := SecM.mk invTemplate '^' (("a").data) (("B").data) []

theorem stringMkData (s : String) : String.mk s.data = s := rfl

theorem renderF_succ (n : Nat) : renderF (n + 1) = renderBody (renderSectionsF n) (renderTagsF n) := rfl

theorem renderSectionsF_succ (n : Nat) :
    renderSectionsF (n + 1) = sectionsBody (renderF n) (renderSectionsF n) := rfl

theorem renderTagsF_succ (n : Nat) :
    renderTagsF (n + 1) = tagsBody (renderF n) (renderTagsF n) := rfl

/-- C7: rendering `{{n}}` against a context mapping `n` to the numeric
value zero produces the string `"0"`, not the empty string: `render_tag`
tests `raw is not 0` before treating a falsy value as empty. -/
theorem claim_C7_theorem :
    render 8 ("\x7b\x7bn\x7d\x7d") (Value.dict [("n", Value.int 0)]) = Except.ok ("0") := rfl

/-- C2: for every boolean `b`, `{{#f}}X{{/f}}` renders to `"X"` exactly
when `b` is true and `{{^f}}X{{/f}}` renders to `"X"` exactly when `b` is
false, the other case giving the empty string. -/
theorem claim_C2_theorem (b : Bool) :
    render 8 ("\x7b\x7b#f\x7d\x7dX\x7b\x7b/f\x7d\x7d") (Value.dict [("f", Value.bool b)])
        = Except.ok (if b then ("X") else ("")) ∧
      render 8 ("\x7b\x7b^f\x7d\x7dX\x7b\x7b/f\x7d\x7d") (Value.dict [("f", Value.bool b)])
        = Except.ok (if b then ("") else ("X")) := by
  cases b <;> exact ⟨rfl, rfl⟩

/-- C4 (code bug, failing input): iterating `{{#items}}{{name}};{{/items}}`
over `[{'name': 'A'}, 0]` with the root also binding `name` to `"R"` yields
`"A;R;"`: the nested `self.render(inner, item)` call goes through
`context = context or self.context`, so the falsy item `0` is replaced by
the root context instead of becoming the current context, against the
module docstring "repeated once for each item, with the item as the current
context" (which would give `"A;;"`). -/
theorem claim_C4_theorem :
    render 12 ("\x7b\x7b#items\x7d\x7d\x7b\x7bname\x7d\x7d;\x7b\x7b/items\x7d\x7d")
        (Value.dict [("items", Value.list [Value.dict [("name", Value.str "A")], Value.int 0]),
          ("name", Value.str "R")])
      = Except.ok ("A;R;") := rfl

/-- C6 (counterexample): rendering `{{{t}}}` with `t` bound to `"hi"` does
not perform unescaped interpolation; the tag regexp reports modifier `{`,
`modifiers[tag_type]` raises KeyError, and the render call errors out. -/
theorem claim_C6_counterexample :
    render 8 ("\x7b\x7b\x7bt\x7d\x7d\x7d") (Value.dict [("t", Value.str "hi")])
        = Except.error (RErr.py PyErr.keyError) ∧
      Except.error (RErr.py PyErr.keyError) ≠ (Except.ok ("hi") : Except RErr String) :=
  ⟨rfl, by simp⟩

/-- C6 (amended): a tag whose modifier symbol is `{` is recognized by the
tag matcher, but the modifier table has no entry for `{`, so rendering
`{{{t}}}` raises KeyError for every context and every sufficient fuel,
instead of dispatching to unescaped interpolation. -/
theorem claim_C6_theorem (n : Nat) (ctx : Value) :
    render (n + 2) ("\x7b\x7b\x7bt\x7d\x7d\x7d") ctx = Except.error (RErr.py PyErr.keyError) := by
  have hs : sectionSearch otagD ctagD (("\x7b\x7b\x7bt\x7d\x7d\x7d").data) = none := rfl
  have ht : tagSearch otagD ctagD (("\x7b\x7b\x7bt\x7d\x7d\x7d").data)
      = some (TagM.mk (("\x7b\x7b\x7bt\x7d\x7d\x7d").data) (some '\x7b') (("t").data)) := rfl
  show render (n + 1 + 1) _ _ = _
  simp [render, renderF_succ, renderSectionsF_succ, renderTagsF_succ, renderBody,
    sectionsBody, tagsBody, pyOrT, pyOrV, hs, ht, applyModifier]

/-- C5 (counterexample): a callable section's return value is not final
for the section-expansion phase.  With `up` returning the block text
`{{#g}}N{{/g}}` and `g` false, the section phase expands that block away
on its next iteration and the render yields `""`; under the claim the
section phase would leave the returned text alone and only the tag phase
would strip the `{{#g}}`/`{{/g}}` spans, yielding `"N"`. -/
theorem claim_C5_counterexample :
    render 10 ("\x7b\x7b#up\x7d\x7dx\x7b\x7b/up\x7d\x7d")
        (Value.dict [("up", Value.func (FuncSpec.constRes ("\x7b\x7b#g\x7d\x7dN\x7b\x7b/g\x7d\x7d"))),
          ("g", Value.bool false)])
        = Except.ok ("") ∧
      (Except.ok ("") : Except RErr String) ≠ Except.ok ("N") :=
  ⟨rfl, by simp⟩

/-- C5 (amended): when a `#` section's resolved value is callable, the
callable receives the raw unrendered inner text together with the current
context, and its return value is substituted verbatim (not recursively
rendered at substitution time); the section phase then continues rewriting
the whole template, so section blocks occurring in the returned text are
expanded by later iterations, and remaining tags by the subsequent tag
phase.  The second conjunct runs the spec's example: the callable sees the
raw eight-character inner text with the cv tag still inside, uppercases it,
and the tag phase then processes the resulting uppercased tag. -/
theorem claim_C5_theorem :
    (∀ (n : Nat) (st : PyState) (tmpl : List Char) (ctx : Value) (m : SecM) (f : FuncSpec),
        sectionSearch st.otag st.ctag tmpl = some m →
        get_it st.rootCtx (pyStrip m.name) ctx = Value.func f →
        m.marker = '#' →
        renderSectionsF (n + 1) st tmpl ctx
          = renderSectionsF n st (pyReplace tmpl m.full ((applyFunc f (String.mk m.inner) ctx).data)) ctx) ∧
      render 10 ("\x7b\x7b#up\x7d\x7dab\x7b\x7bcv\x7d\x7d\x7b\x7b/up\x7d\x7d") upCtx = Except.ok ("AB") := by
  refine ⟨?_, rfl⟩
  intro n st tmpl ctx m f hsearch hget hmarker
  rw [renderSectionsF_succ]
  simp [sectionsBody, hsearch, hget, hmarker, truthy]

/-- C10: a delimiter-change tag whose trimmed body does not split on the
space character into exactly two tokens makes
`self.otag, self.ctag = tag_name.split(' ')` raise ValueError, and the
exception propagates uncaught out of the render: shown for the handler on
every such body, and end to end for the one-token body `abc` and the
three-token body `a  b` (two spaces). -/
theorem claim_C10_theorem :
    (∀ (rend : RendFn) (st : PyState) (name : List Char) (ctx : Value),
        (splitChar ' ' name).length ≠ 2 →
        applyModifier rend st (some '=') name ctx = Except.error (RErr.py PyErr.valueError)) ∧
      render 8 ("\x7b\x7b=abc\x7d\x7d") (Value.dict []) = Except.error (RErr.py PyErr.valueError) ∧
      render 8 ("\x7b\x7b=a  b\x7d\x7d") (Value.dict []) = Except.error (RErr.py PyErr.valueError) := by
  refine ⟨?_, rfl, rfl⟩
  intro rend st name ctx h
  match h2 : splitChar ' ' name with
  | [] => simp [applyModifier, h2]
  | [a] => simp [applyModifier, h2]
  | [a, b] => exact absurd (by rw [h2]; rfl) h
  | a :: b :: c :: t => simp [applyModifier, h2]

/-- C10 (witness): the handler raises on the concrete one-token body
`abc`. -/
theorem claim_C10_witness :
    applyModifier (renderF 0) (PyState.mk [] (Value.dict []) otagD ctagD (fun _ => none))
      (some '=') (("abc").data) (Value.dict [])
      = Except.error (RErr.py PyErr.valueError) :=
  claim_C10_theorem.1 (renderF 0) (PyState.mk [] (Value.dict []) otagD ctagD (fun _ => none))
    (("abc").data) (Value.dict []) (by decide)

/-- C5 (witness): the step equation at the spec's example: the `up` section
of `{{#up}}ab{{cv}}{{/up}}` resolves to the uppercasing callable, and one
section-phase iteration substitutes its output on the raw inner text. -/
theorem claim_C5_witness :
    renderSectionsF 4 upState upTemplate upCtx
      = renderSectionsF 3 upState
          (pyReplace upTemplate upTemplate ((applyFunc FuncSpec.upper (String.mk upInner) upCtx).data)) upCtx :=
  claim_C5_theorem.1 3 upState upTemplate upCtx
    (SecM.mk upTemplate '#' (("up").data) upInner []) FuncSpec.upper rfl rfl rfl

theorem tagSearch_none (ot ct : List Char) (s : List Char) (h : occursIn ot s = false) :
    tagSearch ot ct s = none := by
  induction s with
  | nil =>
    have hd : dropPref ot [] = none := by
      cases hd : dropPref ot [] with
      | none => rfl
      | some r => rw [occursIn, hd] at h; simp at h
    simp [tagSearch, tagMatchAt, hd]
  | cons c r ih =>
    rw [occursIn, Bool.or_eq_false_iff] at h
    have hd : dropPref ot (c :: r) = none := by
      cases hd : dropPref ot (c :: r) with
      | none => rfl
      | some r0 => rw [hd] at h; simp at h
    simp [tagSearch, tagMatchAt, hd, ih h.2]

theorem sectionSearch_none (ot ct : List Char) (s : List Char) (h : occursIn ot s = false) :
    sectionSearch ot ct s = none := by
  induction s with
  | nil =>
    have hd : dropPref ot [] = none := by
      cases hd : dropPref ot [] with
      | none => rfl
      | some r => rw [occursIn, hd] at h; simp at h
    simp [sectionSearch, sectionMatchAt, hd]
  | cons c r ih =>
    rw [occursIn, Bool.or_eq_false_iff] at h
    have hd : dropPref ot (c :: r) = none := by
      cases hd : dropPref ot (c :: r) with
      | none => rfl
      | some r0 => rw [hd] at h; simp at h
    simp [sectionSearch, sectionMatchAt, hd, ih h.2]

/-- C9: a template with no occurrence of the open delimiter has no section
match and no tag match, so both rewriting phases stop immediately and the
render returns the template unchanged, for every context and any
sufficient fuel. -/
theorem claim_C9_theorem (tmpl : String) (ctx : Value) (n : Nat)
    (h : occursIn otagD tmpl.data = false) :
    render (n + 2) tmpl ctx = Except.ok tmpl := by
  have hs := sectionSearch_none otagD ctagD tmpl.data h
  have ht := tagSearch_none otagD ctagD tmpl.data h
  show render (n + 1 + 1) _ _ = _
  simp [render, renderF_succ, renderSectionsF_succ, renderTagsF_succ, renderBody,
    sectionsBody, tagsBody, pyOrT, pyOrV, hs, ht, stringMkData]

/-- C9 (witness): a concrete delimiter-free template renders to itself. -/
theorem claim_C9_witness :
    render 2 ("plain text, no tags") (Value.dict []) = Except.ok ("plain text, no tags") :=
  claim_C9_theorem ("plain text, no tags") (Value.dict []) 0 (by decide)

theorem beqCharFalse (a b : Char) (h : ¬a = b) : (a == b) = false := by
  cases hb : (a == b) with
  | false => rfl
  | true => exact absurd (by simpa [beq_iff_eq] using hb) h

theorem beqCharSymmFalse (a b : Char) (h : (a == b) = false) : (b == a) = false := by
  cases hb : (b == a) with
  | false => rfl
  | true =>
    have hba : b = a := by simpa [beq_iff_eq] using hb
    subst hba
    rw [beq_self_eq_true] at h
    simp at h

theorem noBrace_head (a : Char) (t : List Char) (h : noBrace (a :: t) = true) :
    (a == '\x7b') = false ∧ noBrace t = true := by
  rw [noBrace, List.all_cons, Bool.and_eq_true] at h
  refine ⟨?_, h.2⟩
  cases hb : (a == '\x7b') with
  | false => rfl
  | true =>
    have h1 := h.1
    rw [hb] at h1
    simp at h1

theorem headNB_append (x z : List Char) (hx : noBrace x = true) (hne : x ≠ []) :
    headNB (x ++ z) = true := by
  cases x with
  | nil => exact absurd rfl hne
  | cons a t =>
    show (!(a == '\x7b')) = true
    rw [(noBrace_head a t hx).1]
    rfl

theorem occursIn_append_noBrace (x y : List Char) (hx : noBrace x = true) :
    occursIn otagD (x ++ y) = occursIn otagD y := by
  induction x with
  | nil => rfl
  | cons a t ih =>
    have h := noBrace_head a t hx
    have ha : ('\x7b' == a) = false := beqCharSymmFalse a '\x7b' h.1
    rw [List.cons_append, occursIn]
    have hd : dropPref otagD (a :: (t ++ y)) = none := by
      show (if ('\x7b' == a) = true then dropPref ['\x7b'] (t ++ y) else none) = none
      rw [ha]
      simp
    rw [hd, ih h.2]
    simp

theorem headNB_dropPref (z : List Char) : (dropPref ['\x7b'] z).isSome = !headNB z := by
  cases z with
  | nil => rfl
  | cons a t =>
    by_cases h : a = '\x7b'
    · subst h; rfl
    · have h2 : (a == '\x7b') = false := beqCharFalse a '\x7b' h
      have h1 : ('\x7b' == a) = false := beqCharSymmFalse a '\x7b' h2
      simp [dropPref, headNB, h1, h2]

theorem headNB_replaceAuxF (p : Char) (rep : List Char) (hrepNB : noBrace rep = true)
    (hrepNE : rep ≠ []) (fuel : Nat) :
    ∀ s : List Char, headNB s = true → headNB (replaceAuxF [p] rep fuel s) = true := by
  induction fuel with
  | zero =>
    intro s hs
    cases s with
    | nil => rfl
    | cons c r => exact hs
  | succ n ih =>
    intro s hs
    cases s with
    | nil => rfl
    | cons c r =>
      rw [replaceAuxF]
      by_cases hc : p = c
      · subst hc
        simp only [dropPref, beq_self_eq_true, if_true]
        exact headNB_append rep _ hrepNB hrepNE
      · have hcc : (p == c) = false := beqCharFalse p c hc
        simp only [dropPref, hcc]
        simpa [headNB] using hs

theorem occursIn_replaceAuxF (p : Char) (rep : List Char)
    (hrepNB : noBrace rep = true) (hrepNE : rep ≠ []) (fuel : Nat) :
    ∀ s : List Char, occursIn otagD s = false →
      occursIn otagD (replaceAuxF [p] rep fuel s) = false := by
  induction fuel with
  | zero =>
    intro s hs
    cases s with
    | nil => exact hs
    | cons c r => exact hs
  | succ n ih =>
    intro s hs
    cases s with
    | nil => exact hs
    | cons c r =>
      rw [occursIn, Bool.or_eq_false_iff] at hs
      rw [replaceAuxF]
      by_cases hc : p = c
      · subst hc
        simp only [dropPref, beq_self_eq_true, if_true]
        rw [occursIn_append_noBrace rep _ hrepNB]
        exact ih r hs.2
      · have hcc : (p == c) = false := beqCharFalse p c hc
        simp only [dropPref, hcc]
        rw [if_neg (by simp), occursIn, Bool.or_eq_false_iff]
        refine ⟨?_, ih r hs.2⟩
        by_cases hbr : c = '\x7b'
        · subst hbr
          have h1 : (dropPref ['\x7b'] r).isSome = false := by
            have h0 := hs.1
            simpa [otagD, dropPref] using h0
          rw [headNB_dropPref] at h1
          have h2 : headNB r = true := by
            cases hh : headNB r with
            | false => rw [hh] at h1; simp at h1
            | true => rfl
          have h3 := headNB_replaceAuxF p rep hrepNB hrepNE n r h2
          simp only [otagD, dropPref, beq_self_eq_true, if_true]
          rw [headNB_dropPref, h3]
          rfl
        · have hb2 : ('\x7b' == c) = false := beqCharSymmFalse c '\x7b' (beqCharFalse c '\x7b' hbr)
          simp [otagD, dropPref, hb2]

theorem occursIn_pyReplace_single (p : Char) (rep : List Char)
    (hrepNB : noBrace rep = true) (hrepNE : rep ≠ []) (s : List Char)
    (h : occursIn otagD s = false) : occursIn otagD (pyReplace s [p] rep) = false :=
  occursIn_replaceAuxF p rep hrepNB hrepNE s.length s h

theorem occursIn_cgiEscape (s : List Char) (h : occursIn otagD s = false) :
    occursIn otagD (cgiEscape s) = false :=
  occursIn_pyReplace_single '>' (("&gt;").data) (by decide) (by decide) _
    (occursIn_pyReplace_single '<' (("&lt;").data) (by decide) (by decide) _
      (occursIn_pyReplace_single '&' (("&amp;").data) (by decide) (by decide) _ h))

/-- C1 (counterexample): `render_tag` escapes through `cgi.escape` without
the `quote` flag, so a double quote is left as-is rather than becoming
`&quot;`: the escaped form required by the claim is not produced. -/
theorem claim_C1_counterexample :
    render 8 ("\x7b\x7bt\x7d\x7d") (Value.dict [("t", Value.str "\"")]) = Except.ok ("\"") ∧
      ("\"" : String) ≠ ("&quot;") :=
  ⟨rfl, by decide⟩

/-- C1 (amended): for a context binding `t` to a truthy string that does
not contain the open delimiter `{{` (the tag-rendering loop rescans its own
replacements, so delimiter-bearing values would be reinterpreted),
rendering `{{t}}` returns the string with `&`, `<`, `>` escaped in that
order and quote characters left unescaped, and rendering `{{&t}}` returns
the string with no escaping at all. -/
theorem claim_C1_theorem (s : String) (n : Nat) (h1 : s ≠ "")
    (h2 : occursIn otagD s.data = false) :
    render (n + 3) ("\x7b\x7bt\x7d\x7d") (Value.dict [("t", Value.str s)])
        = Except.ok (String.mk (cgiEscape s.data)) ∧
      render (n + 3) ("\x7b\x7b&t\x7d\x7d") (Value.dict [("t", Value.str s)]) = Except.ok s := by
  have hne : s.data.isEmpty = false := by
    cases hd : s.data with
    | nil => exact absurd (by rw [← stringMkData s, hd]) h1
    | cons a t => rfl
  have hsec1 : sectionSearch otagD ctagD (("\x7b\x7bt\x7d\x7d").data) = none := rfl
  have hsec2 : sectionSearch otagD ctagD (("\x7b\x7b&t\x7d\x7d").data) = none := rfl
  have htag1 : tagSearch otagD ctagD (("\x7b\x7bt\x7d\x7d").data)
      = some (TagM.mk (("\x7b\x7bt\x7d\x7d").data) none (("t").data)) := rfl
  have htag2 : tagSearch otagD ctagD (("\x7b\x7b&t\x7d\x7d").data)
      = some (TagM.mk (("\x7b\x7b&t\x7d\x7d").data) (some '&') (("t").data)) := rfl
  have hrepl1 : ∀ rep : List Char,
      pyReplace (("\x7b\x7bt\x7d\x7d").data) (("\x7b\x7bt\x7d\x7d").data) rep = rep := by
    intro rep
    show replaceAuxF _ rep _ _ = rep
    simp [replaceAuxF, dropPref]
  have hrepl2 : ∀ rep : List Char,
      pyReplace (("\x7b\x7b&t\x7d\x7d").data) (("\x7b\x7b&t\x7d\x7d").data) rep = rep := by
    intro rep
    show replaceAuxF _ rep _ _ = rep
    simp [replaceAuxF, dropPref]
  have htagNone1 : tagSearch otagD ctagD (cgiEscape s.data) = none :=
    tagSearch_none otagD ctagD _ (occursIn_cgiEscape s.data h2)
  have htagNone2 : tagSearch otagD ctagD s.data = none := tagSearch_none otagD ctagD _ h2
  have hget : get_it (Value.dict [("t", Value.str s)]) (pyStrip ['t'])
      (Value.dict [("t", Value.str s)]) = Value.str s := rfl
  constructor
  · show render (n + 1 + 1 + 1) _ _ = _
    simp [render, renderF_succ, renderSectionsF_succ, renderTagsF_succ, renderBody,
      sectionsBody, tagsBody, pyOrT, pyOrV, hsec1, htag1, applyModifier, truthy, isIntZero,
      hne, hrepl1, htagNone1, pyUnicode, hget]
  · show render (n + 1 + 1 + 1) _ _ = _
    simp [render, renderF_succ, renderSectionsF_succ, renderTagsF_succ, renderBody,
      sectionsBody, tagsBody, pyOrT, pyOrV, hsec2, htag2, applyModifier, truthy, isIntZero,
      hne, hrepl2, htagNone2, pyUnicode, stringMkData, hget]

/-- C1 (witness): the amended claim at the spec's example string, whose
escaped form is `&lt;&gt;&amp;"` (the quote surviving unescaped). -/
theorem claim_C1_witness :
    render 3 ("\x7b\x7bt\x7d\x7d") (Value.dict [("t", Value.str "<>&\"")])
        = Except.ok (String.mk (cgiEscape (("<>&\"").data))) ∧
      render 3 ("\x7b\x7b&t\x7d\x7d") (Value.dict [("t", Value.str "<>&\"")])
        = Except.ok ("<>&\"") :=
  claim_C1_theorem ("<>&\"") 0 (by decide) (by decide)

theorem pyIndexL_nil (i : Int) : pyIndexL ([] : List Char) i = none := by
  unfold pyIndexL
  simp

theorem tryIndex_emptyStr (seg : List Char) : tryIndex (Value.str "") seg = none := by
  unfold tryIndex
  cases hp : pyInt seg with
  | none => rfl
  | some i => simp [pyIndexL_nil]

theorem getItAux_emptyStr (root : Value) (rest : List (List Char)) :
    getItAux root rest (Value.str "") = Value.str "" := by
  cases rest with
  | nil => rfl
  | cons seg r => simp [getItAux, tryIndex_emptyStr]

theorem getItAuxE_emptyStr (root : Value) (rest : List (List Char)) :
    getItAuxE root rest (Value.str "")
      = (match rest with
         | [] => Except.ok (Value.str "")
         | _ :: _ => Except.error PyErr.indexingError) := by
  cases rest with
  | nil => rfl
  | cons seg r => simp [getItAuxE, tryIndex_emptyStr]

/-- C3: the context resolver never raises and resolves every failure to the
empty string.  First conjunct: the resolver's walk equals the uncaught
variant with every raised indexing error recovered to `''` — the bare
`except:` in `_get_it` is a complete catch.  The remaining conjuncts show
each failure class of the claim ending the whole resolution with the empty
string: a non-integer segment applied to a sequence, an out-of-range index
(positive or negative), a non-indexable value (int, bool, callable), and an
unresolvable mapping path (missing key, however many segments follow). -/
theorem claim_C3_theorem :
    (∀ (root : Value) (segs : List (List Char)) (c : Value),
        getItAux root segs c
          = (match getItAuxE root segs c with
             | Except.ok v => v
             | Except.error _ => Value.str "")) ∧
      (∀ (root : Value) (rest : List (List Char)) (seg : List Char) (l : List Value),
          pyInt seg = none → getItAux root (seg :: rest) (Value.list l) = Value.str "") ∧
      (∀ (root : Value) (rest : List (List Char)) (seg : List Char) (l : List Value) (i : Int),
          pyInt seg = some i → pyIndexL l i = none →
          getItAux root (seg :: rest) (Value.list l) = Value.str "") ∧
      (∀ (root : Value) (rest : List (List Char)) (seg : List Char) (k : Int),
          getItAux root (seg :: rest) (Value.int k) = Value.str "") ∧
      (∀ (root : Value) (rest : List (List Char)) (seg : List Char) (b : Bool),
          getItAux root (seg :: rest) (Value.bool b) = Value.str "") ∧
      (∀ (root : Value) (rest : List (List Char)) (seg : List Char) (f : FuncSpec),
          getItAux root (seg :: rest) (Value.func f) = Value.str "") ∧
      (∀ (root : Value) (rest : List (List Char)) (seg : List Char) (d : List (String × Value)),
          dictLookup d (String.mk seg) = none →
          getItAux root (seg :: rest) (Value.dict d) = Value.str "") := by
  refine ⟨?_, ?_, ?_, ?_, ?_, ?_, ?_⟩
  · intro root segs
    induction segs with
    | nil => intro c; rfl
    | cons seg rest ih =>
      intro c
      cases c with
      | dict d =>
        simp only [getItAux, getItAuxE]
        exact ih _
      | str s =>
        simp only [getItAux, getItAuxE]
        cases ht : tryIndex (Value.str s) seg with
        | none => simp [ht]
        | some v => simp only [ht]; exact ih v
      | int k =>
        simp only [getItAux, getItAuxE]
        cases ht : tryIndex (Value.int k) seg with
        | none => simp [ht]
        | some v => simp only [ht]; exact ih v
      | bool b =>
        simp only [getItAux, getItAuxE]
        cases ht : tryIndex (Value.bool b) seg with
        | none => simp [ht]
        | some v => simp only [ht]; exact ih v
      | list l =>
        simp only [getItAux, getItAuxE]
        cases ht : tryIndex (Value.list l) seg with
        | none => simp [ht]
        | some v => simp only [ht]; exact ih v
      | func f =>
        simp only [getItAux, getItAuxE]
        cases ht : tryIndex (Value.func f) seg with
        | none => simp [ht]
        | some v => simp only [ht]; exact ih v
  · intro root rest seg l hp
    simp [getItAux, tryIndex, hp]
  · intro root rest seg l i hp hidx
    simp [getItAux, tryIndex, hp, hidx]
  · intro root rest seg k
    simp only [getItAux]
    cases ht : tryIndex (Value.int k) seg with
    | none => rfl
    | some v => rw [tryIndex] at ht; cases hp : pyInt seg <;> rw [hp] at ht <;> simp at ht
  · intro root rest seg b
    simp only [getItAux]
    cases ht : tryIndex (Value.bool b) seg with
    | none => rfl
    | some v => rw [tryIndex] at ht; cases hp : pyInt seg <;> rw [hp] at ht <;> simp at ht
  · intro root rest seg f
    simp only [getItAux]
    cases ht : tryIndex (Value.func f) seg with
    | none => rfl
    | some v => rw [tryIndex] at ht; cases hp : pyInt seg <;> rw [hp] at ht <;> simp at ht
  · intro root rest seg d hd
    simp [getItAux, hd, getItAux_emptyStr]

/-- C3 (witness): the non-integer segment `x` applied to the sequence
`[5]` resolves silently to the empty string. -/
theorem claim_C3_witness :
    getItAux (Value.dict []) ((("x").data) :: []) (Value.list [Value.int 5]) = Value.str "" :=
  claim_C3_theorem.2.1 (Value.dict []) [] (("x").data) [Value.int 5] (by decide)

theorem dropPref_sound : ∀ (p s r : List Char), dropPref p s = some r → s = p ++ r := by
  intro p
  induction p with
  | nil =>
    intro s r h
    simp [dropPref] at h
    simp [h]
  | cons a ps ih =>
    intro s r h
    cases s with
    | nil => simp [dropPref] at h
    | cons c t =>
      rw [dropPref] at h
      cases hac : (a == c) with
      | false => rw [hac] at h; simp at h
      | true =>
        rw [hac] at h
        simp at h
        have hc : a = c := by simpa [beq_iff_eq] using hac
        subst hc
        rw [List.cons_append, ih t r h]

theorem dropPref_refl_append : ∀ (p r : List Char), dropPref p (p ++ r) = some r := by
  intro p
  induction p with
  | nil => intro r; rfl
  | cons a ps ih => intro r; simp [dropPref, ih]

theorem findClose_sound (close : List Char) :
    ∀ (s acc inner rest : List Char), findClose close acc s = some (inner, rest) →
      ∃ suf, suf ≠ [] ∧ inner = acc ++ suf ∧ s = suf ++ close ++ rest := by
  intro s
  induction s with
  | nil => intro acc inner rest h; simp [findClose] at h
  | cons c r ih =>
    intro acc inner rest h
    rw [findClose] at h
    cases hd : dropPref close r with
    | some rest0 =>
      rw [hd] at h
      simp at h
      refine ⟨[c], by simp, by rw [← h.1], ?_⟩
      rw [dropPref_sound close r rest0 hd, ← h.2]
      simp
    | none =>
      rw [hd] at h
      obtain ⟨suf, hne, hin, hs⟩ := ih (acc ++ [c]) inner rest h
      refine ⟨c :: suf, by simp, by rw [hin]; simp, ?_⟩
      rw [List.cons_append, hs]
      simp

theorem countRun_take (c : Char) : ∀ (k : Nat) (s : List Char), k ≤ countRun c s →
    s = List.replicate k c ++ s.drop k := by
  intro k
  induction k with
  | zero => intro s h; simp
  | succ j ih =>
    intro s h
    cases s with
    | nil => rw [countRun] at h; omega
    | cons x r =>
      rw [countRun] at h
      cases hx : (x == c) with
      | false => rw [hx] at h; simp at h
      | true =>
        rw [hx] at h
        simp at h
        have hxc : x = c := by simpa [beq_iff_eq] using hx
        rw [hxc, List.replicate_succ, List.cons_append, List.drop_succ_cons,
          ← ih r (by omega)]

theorem tryStar_sound (close : List Char) :
    ∀ (cnt : Nat) (s : List Char) (k : Nat) (inner rest : List Char),
      tryStar close cnt s = some (k, inner, rest) →
      k ≤ cnt ∧ inner ≠ [] ∧ s.drop k = inner ++ close ++ rest := by
  intro cnt
  induction cnt with
  | zero =>
    intro s k inner rest h
    rw [tryStar] at h
    cases hf : findClose close [] s with
    | none => rw [hf] at h; simp at h
    | some p =>
      rw [hf] at h
      cases p with
      | mk i2 r2 =>
        simp at h
        obtain ⟨hk, hi, hr⟩ := h
        obtain ⟨suf, hne, hin, hs⟩ := findClose_sound close s [] i2 r2 hf
        subst hk
        refine ⟨Nat.le_refl 0, ?_, ?_⟩
        · rw [← hi, hin]; simpa using hne
        · rw [List.drop_zero, hs, ← hi, ← hr, hin]; simp
  | succ j ih =>
    intro s k inner rest h
    rw [tryStar] at h
    cases hf : findClose close [] (s.drop (j + 1)) with
    | some p =>
      rw [hf] at h
      cases p with
      | mk i2 r2 =>
        simp at h
        obtain ⟨hk, hi, hr⟩ := h
        obtain ⟨suf, hne, hin, hs⟩ := findClose_sound close (s.drop (j + 1)) [] i2 r2 hf
        subst hk
        refine ⟨Nat.le_refl _, ?_, ?_⟩
        · rw [← hi, hin]; simpa using hne
        · rw [hs, ← hi, ← hr, hin]; simp
    | none =>
      rw [hf] at h
      obtain ⟨hk, hi, hs⟩ := ih s k inner rest h
      exact ⟨Nat.le_trans hk (Nat.le_succ j), hi, hs⟩

theorem splitSecName_sound (ot ct : List Char) (marker : Char) :
    ∀ (s acc : List Char) (m : SecM), splitSecName ot ct marker acc s = some m →
      m.marker = marker ∧
      (∃ lastc k nsuf, ct.getLast? = some lastc ∧ nsuf ≠ [] ∧ m.name = acc ++ nsuf ∧
        m.inner ≠ [] ∧
        s = nsuf ++ ct.dropLast ++ List.replicate k lastc ++ m.inner
              ++ ot ++ ['/'] ++ m.name ++ ct ++ m.rest ∧
        m.full = ot ++ [marker] ++ m.name ++ ct.dropLast ++ List.replicate k lastc
              ++ m.inner ++ ot ++ ['/'] ++ m.name ++ ct) := by
  intro s
  induction s with
  | nil => intro acc m h; simp [splitSecName] at h
  | cons c r ih =>
    intro acc m h
    rw [splitSecName] at h
    cases hlast : ct.getLast? with
    | none => rw [hlast] at h; simp at h
    | some lastc =>
      simp only [hlast] at h
      cases hdp : dropPref ct.dropLast r with
      | none =>
        simp only [hdp] at h
        obtain ⟨hm, lastc2, k, nsuf, hl2, hne, hname, hinner, hs, hfull⟩ := ih (acc ++ [c]) m h
        refine ⟨hm, lastc2, k, c :: nsuf, by rw [← hlast]; exact hl2, by simp,
          by rw [hname]; simp, hinner, ?_, hfull⟩
        rw [List.cons_append, hs]
        simp
      | some r1 =>
        simp only [hdp] at h
        cases hts : tryStar (ot ++ ['/'] ++ (acc ++ [c]) ++ ct) (countRun lastc r1) r1 with
        | none =>
          simp only [hts] at h
          obtain ⟨hm, lastc2, k, nsuf, hl2, hne, hname, hinner, hs, hfull⟩ := ih (acc ++ [c]) m h
          refine ⟨hm, lastc2, k, c :: nsuf, by rw [← hlast]; exact hl2, by simp,
            by rw [hname]; simp, hinner, ?_, hfull⟩
          rw [List.cons_append, hs]
          simp
        | some trip =>
          obtain ⟨k0, inner0, rest0⟩ := trip
          simp only [hts] at h
          simp at h
          obtain ⟨hk0, hin0, hs0⟩ := tryStar_sound _ _ _ _ _ _ hts
          have hr1 : r1 = List.replicate k0 lastc ++ r1.drop k0 := countRun_take lastc k0 r1 hk0
          refine ⟨?_, lastc, k0, [c], rfl, by simp, ?_, ?_, ?_, ?_⟩
          · rw [← h]
          · rw [← h]
          · rw [← h]; simpa using hin0
          · rw [dropPref_sound ct.dropLast r r1 hdp]
            conv_lhs => rw [hr1]
            rw [hs0, ← h]
            simp [List.append_assoc]
          · rw [← h]
            simp [List.append_assoc]

theorem sectionMatchAt_sound (ot ct s : List Char) (m : SecM)
    (h : sectionMatchAt ot ct s = some m) : s = m.full ++ m.rest ∧ SecShape ot ct m := by
  rw [sectionMatchAt] at h
  cases hdp : dropPref ot s with
  | none => rw [hdp] at h; simp at h
  | some r0 =>
    cases r0 with
    | nil => simp [hdp] at h
    | cons c r1 =>
      simp only [hdp] at h
      by_cases hc : (c == '#' || c == '^' || c == '?') = true
      · rw [if_pos hc] at h
        obtain ⟨hm, lastc, k, nsuf, hlast, hne, hname, hinner, hs, hfull⟩ :=
          splitSecName_sound ot ct c r1 [] m h
        have hname2 : m.name = nsuf := by rw [hname]; simp
        constructor
        · rw [dropPref_sound ot s (c :: r1) hdp, hs, hfull, hname2]
          simp [List.append_assoc]
        · exact ⟨lastc, k, hlast, hinner, by rw [hfull, hm]⟩
      · rw [if_neg hc] at h
        simp at h

theorem sectionSearch_sound (ot ct : List Char) :
    ∀ (tmpl : List Char) (m : SecM), sectionSearch ot ct tmpl = some m →
      (∃ pre, tmpl = pre ++ (m.full ++ m.rest)) ∧ SecShape ot ct m := by
  intro tmpl
  induction tmpl with
  | nil =>
    intro m h
    rw [sectionSearch] at h
    obtain ⟨hs, hsh⟩ := sectionMatchAt_sound ot ct [] m h
    exact ⟨⟨[], by simpa using hs⟩, hsh⟩
  | cons c r ih =>
    intro m h
    rw [sectionSearch] at h
    cases hma : sectionMatchAt ot ct (c :: r) with
    | some m0 =>
      rw [hma] at h
      simp at h
      subst h
      obtain ⟨hs, hsh⟩ := sectionMatchAt_sound ot ct (c :: r) m0 hma
      exact ⟨⟨[], by simpa using hs⟩, hsh⟩
    | none =>
      rw [hma] at h
      obtain ⟨⟨pre, hp⟩, hsh⟩ := ih m h
      exact ⟨⟨c :: pre, by rw [List.cons_append, ← hp]⟩, hsh⟩

theorem replaceAuxF_length_le (pat rep : List Char) (hne : pat ≠ [])
    (hlen : rep.length ≤ pat.length) :
    ∀ (fuel : Nat) (s : List Char), s.length ≤ fuel →
      (replaceAuxF pat rep fuel s).length ≤ s.length := by
  intro fuel
  induction fuel with
  | zero =>
    intro s hs
    cases s with
    | nil => simp [replaceAuxF]
    | cons c r => simp at hs
  | succ j ih =>
    intro s hs
    cases s with
    | nil => simp [replaceAuxF]
    | cons c r =>
      rw [replaceAuxF]
      cases hd : dropPref pat (c :: r) with
      | some rest =>
        have hdec := dropPref_sound pat (c :: r) rest hd
        have hp1 : 1 ≤ pat.length := by
          cases pat with
          | nil => exact absurd rfl hne
          | cons a b => simp
        have hlens : (c :: r).length = pat.length + rest.length := by rw [hdec]; simp
        have hrl : rest.length ≤ j := by
          simp at hs hlens
          omega
        have haux := ih rest hrl
        simp only [List.length_append]
        simp at hlens ⊢
        omega
      | none =>
        have haux := ih r (by simp at hs; omega)
        simp
        omega

theorem replaceAuxF_length_lt (pat rep : List Char) (hne : pat ≠ [])
    (hlt : rep.length < pat.length) :
    ∀ (pre : List Char) (rest2 : List Char) (fuel : Nat),
      (pre ++ (pat ++ rest2)).length ≤ fuel →
      (replaceAuxF pat rep fuel (pre ++ (pat ++ rest2))).length
        < (pre ++ (pat ++ rest2)).length := by
  intro pre
  induction pre with
  | nil =>
    intro rest2 fuel hf
    rw [List.nil_append] at hf ⊢
    cases pat with
    | nil => exact absurd rfl hne
    | cons a ps =>
      cases fuel with
      | zero => simp at hf
      | succ j =>
        rw [List.cons_append, replaceAuxF]
        have hd : dropPref (a :: ps) (a :: (ps ++ rest2)) = some rest2 := by
          rw [← List.cons_append]
          exact dropPref_refl_append (a :: ps) rest2
        rw [hd]
        have hr2 : rest2.length ≤ j := by
          simp at hf
          omega
        have haux := replaceAuxF_length_le (a :: ps) rep hne (Nat.le_of_lt hlt) j rest2 hr2
        simp at hlt ⊢
        omega
  | cons a pre' ih =>
    intro rest2 fuel hf
    rw [List.cons_append] at hf ⊢
    cases fuel with
    | zero => simp at hf
    | succ j =>
      rw [replaceAuxF]
      cases hd : dropPref pat (a :: (pre' ++ (pat ++ rest2))) with
      | some rest0 =>
        have hdec := dropPref_sound pat _ rest0 hd
        have hp1 : 1 ≤ pat.length := by
          cases pat with
          | nil => exact absurd rfl hne
          | cons x y => simp
        have hlens : (a :: (pre' ++ (pat ++ rest2))).length
            = pat.length + rest0.length := by rw [hdec]; simp
        have hr0 : rest0.length ≤ j := by
          simp at hf hlens
          omega
        have haux := replaceAuxF_length_le pat rep hne (Nat.le_of_lt hlt) j rest0 hr0
        simp only [List.length_append]
        simp at hlens ⊢
        omega
      | none =>
        have hlen2 : (pre' ++ (pat ++ rest2)).length ≤ j := by
          simp at hf ⊢
          omega
        have := ih rest2 j hlen2
        simp only [List.length_cons]
        omega

theorem pyReplace_length_lt (pre pat rest2 rep : List Char) (hne : pat ≠ [])
    (hlt : rep.length < pat.length) :
    (pyReplace (pre ++ (pat ++ rest2)) pat rep).length < (pre ++ (pat ++ rest2)).length := by
  cases pat with
  | nil => exact absurd rfl hne
  | cons a ps =>
    show (replaceAuxF (a :: ps) rep _ _).length < _
    exact replaceAuxF_length_lt (a :: ps) rep hne hlt pre rest2 _ (Nat.le_refl _)

/-- C8 (counterexample): the section-expansion phase does not terminate for
every template and context.  With `up` bound to a callable that returns its
own enclosing block text, every loop iteration replaces the matched block
with an identical copy, so no amount of fuel makes `render_sections` reach
its no-match exit: the Python loop runs forever. -/
theorem claim_C8_counterexample :
    ¬ ∃ (n : Nat) (p : List Char × PyState),
        renderSectionsF n loopState loopTemplate loopCtx = Except.ok p := by
  have key : ∀ n : Nat,
      renderSectionsF n loopState loopTemplate loopCtx = Except.error RErr.outOfFuel := by
    intro n
    induction n with
    | zero => rfl
    | succ k ih =>
      have hstep : renderSectionsF (k + 1) loopState loopTemplate loopCtx
          = renderSectionsF k loopState loopTemplate loopCtx := rfl
      rw [hstep, ih]
  rintro ⟨n, p, h⟩
  rw [key n] at h
  exact Except.noConfusion h

/-- C8 (amended): the section phase is not terminating in general — a
callable `#` section can reintroduce its own block (see the
counterexample) — but every iteration whose matched block is not a truthy
`#` section computes its replacement without recursing (empty text, or the
inner text for a falsy `^` / truthy `?` block), continues the loop on the
substituted template, strictly shrinks the template, and the search pattern
only ever matches fully-closed blocks. -/
theorem claim_C8_theorem (st : PyState) (tmpl : List Char) (ctx : Value) (m : SecM) (n : Nat)
    (hsearch : sectionSearch st.otag st.ctag tmpl = some m)
    (hnr : (truthy (get_it st.rootCtx (pyStrip m.name) ctx) && (m.marker == '#')) = false) :
    (renderSectionsF (n + 1) st tmpl ctx
        = renderSectionsF n st (pyReplace tmpl m.full (nonRecReplacer st m ctx)) ctx) ∧
      (pyReplace tmpl m.full (nonRecReplacer st m ctx)).length < tmpl.length ∧
      SecShape st.otag st.ctag m := by
  obtain ⟨⟨pre, hpre⟩, hshape⟩ := sectionSearch_sound st.otag st.ctag tmpl m hsearch
  refine ⟨?_, ?_, hshape⟩
  · rw [renderSectionsF_succ]
    show sectionsBody (renderF n) (renderSectionsF n) st tmpl ctx = _
    rw [sectionsBody, hsearch]
    simp only [hnr, Bool.false_eq_true, if_false, nonRecReplacer]
    by_cases h2 : (!truthy (get_it st.rootCtx (pyStrip m.name) ctx) && (m.marker == '^')) = true
    · simp [h2]
    · simp only [h2, Bool.false_eq_true, if_false]
      by_cases h3 : (truthy (get_it st.rootCtx (pyStrip m.name) ctx) && (m.marker == '?')) = true
      · simp [h3]
      · simp [h3]
  · obtain ⟨lastc, k, hlast, hinner, hfull⟩ := hshape
    have hfullne : m.full ≠ [] := by
      rw [hfull]
      simp
    have hreplen : (nonRecReplacer st m ctx).length < m.full.length := by
      have hinlen : m.inner.length < m.full.length := by
        rw [hfull]
        simp only [List.length_append, List.length_cons, List.length_singleton]
        omega
      have hposlen : 0 < m.full.length := by
        cases hfm : m.full with
        | nil => exact absurd hfm hfullne
        | cons a b => simp
      rw [nonRecReplacer]
      by_cases h2 : (!truthy (get_it st.rootCtx (pyStrip m.name) ctx) && (m.marker == '^')) = true
      · simpa [h2] using hinlen
      · simp only [h2, Bool.false_eq_true, if_false]
        by_cases h3 : (truthy (get_it st.rootCtx (pyStrip m.name) ctx) && (m.marker == '?')) = true
        · simpa [h3] using hinlen
        · simpa [h3] using hposlen
    rw [hpre]
    exact pyReplace_length_lt pre m.full m.rest (nonRecReplacer st m ctx) hfullne hreplen

/-- C8 (witness): one step on the inverted section `{{^a}}B{{/a}}` with an
empty context strictly shrinks the template. -/
theorem claim_C8_witness :
    (pyReplace invTemplate invSecM.full (nonRecReplacer invState invSecM (Value.dict []))).length
      < invTemplate.length :=
  (claim_C8_theorem invState invTemplate (Value.dict []) invSecM 3 rfl rfl).2.1

end Mustache
